import Mathlib

/-!
Verification of the project-initiator interactive wizard (Go sources under
internal/ui). The wizard's stage state machine, list construction, library
selection, name input and title-reveal animation are embedded shallowly:
Go slices become lists, Go maps become association lists, and each update
handler becomes a pure function from a model and a message to a new model
plus an emitted command.
-/

namespace Wizard

/-- Embeds Go strings.ToLower for the ASCII labels used by the wizard
(wizard.go sortStrings / uniqueStrings lowercase their inputs). -/
def goToLower (s : String) : String := ⟨s.data.map Char.toLower⟩

/-- Characters Go strings.TrimSpace removes (ASCII white space as used by
the wizard's inputs). -/
def isGoSpace (c : Char) : Bool :=
  c = ' ' ∨ c = '\t' ∨ c = '\n' ∨ c = '\r' ∨ c = '\x0b' ∨ c = '\x0c'

/-- List-level trim used to embed Go strings.TrimSpace. -/
def trimSpaceList (l : List Char) : List Char :=
  ((l.dropWhile isGoSpace).reverse.dropWhile isGoSpace).reverse

/-- Embeds Go strings.TrimSpace. -/
def goTrimSpace (s : String) : String := ⟨trimSpaceList s.data⟩

/-- Rune-list prefix check (the first list is the candidate prefix). -/
def listHasPrefix (p s : List Char) : Bool :=
  match p with
  | [] => true
  | ph :: pt =>
    match s with
    | [] => false
    | sh :: st => (ph == sh) && listHasPrefix pt st

/-- Embeds Go strings.HasPrefix on the rune lists of the strings. -/
def goHasPrefix (s p : String) : Bool := listHasPrefix p.data s.data

/-- Embeds Go strings.TrimPrefix: drops p from the front of s when it is
a prefix, otherwise returns s unchanged. -/
def goTrimPrefix (s p : String) : String :=
  if goHasPrefix s p then ⟨s.data.drop p.data.length⟩ else s

/-- Embeds Go strings.EqualFold for the ASCII labels compared by the wizard
(selectListItem, contains). -/
def equalFold (a b : String) : Bool := goToLower a == goToLower b

/-- Dedup key of uniqueStrings (helpers.go): lowercase of the trimmed value. -/
def uniqueKey (s : String) : String := goToLower (goTrimSpace s)

/-- Loop body of uniqueStrings (helpers.go lines 70-85): seen accumulates the
lowercased trimmed keys already kept; blank keys are skipped, later
duplicates are dropped, first occurrences are kept in order. -/
def uniqueStringsAux (seen : List String) : List String → List String
  | [] => []
  | v :: vs =>
    let key := uniqueKey v
    if key = "" then uniqueStringsAux seen vs
    else if key ∈ seen then uniqueStringsAux seen vs
    else v :: uniqueStringsAux (key :: seen) vs

/-- Embeds uniqueStrings (helpers.go): case-insensitive dedup after trimming,
first occurrence wins, blank entries dropped. -/
def uniqueStrings (values : List String) : List String := uniqueStringsAux [] values

/-- Rune-wise strict lexicographic comparison of char lists, embedding the
Go string comparison used on the wizard's ASCII labels (where byte order
and rune order agree). -/
def lexLt : List Char → List Char → Bool
  | _, [] => false
  | [], _ :: _ => true
  | a :: as, b :: bs =>
    if a.toNat < b.toNat then true
    else if b.toNat < a.toNat then false
    else lexLt as bs

/-- Comparison used by sortStrings (wizard.go lines 523-531): strict
lexicographic order of the lowercased strings. -/
def keyLtB (a b : String) : Bool := lexLt (goToLower a).data (goToLower b).data

/-- Proposition form of keyLtB. -/
def keyLt (a b : String) : Prop := keyLtB a b = true

instance (a b : String) : Decidable (keyLt a b) :=
  inferInstanceAs (Decidable (keyLtB a b = true))

/-- Inner loop of sortStrings (wizard.go lines 524-530) at one outer index:
cur plays the role of the element at position i; scanning the remaining
elements left to right, whenever one compares strictly below cur (by
lowercase), the two are swapped. Returns the final element at position i
together with the rearranged remainder. -/
def selPass (cur : String) : List String → String × List String
  | [] => (cur, [])
  | x :: xs =>
    if keyLtB x cur then
      let r := selPass x xs
      (r.1, cur :: r.2)
    else
      let r := selPass cur xs
      (r.1, x :: r.2)

theorem selPass_length (cur : String) (l : List String) :
    (selPass cur l).2.length = l.length := by
  induction l generalizing cur with
  | nil => rfl
  | cons x xs ih =>
    simp only [selPass]
    by_cases h : keyLtB x cur = true <;> simp [h, ih]

/-- Outer loop of sortStrings with the remaining outer iterations as
structural fuel; the fuel always equals the list length (selPass preserves
length), so the zero case is never reached on a nonempty list. -/
def sortStringsAux : Nat → List String → List String
  | _, [] => []
  | 0, l => l
  | n + 1, x :: xs =>
    let r := selPass x xs
    r.1 :: sortStringsAux n r.2

/-- Embeds sortStrings (wizard.go lines 523-531), the double swap loop, as
repeated selection passes: each outer step fixes the minimal remaining
element (by lowercase comparison) in place. -/
def sortStrings (l : List String) : List String := sortStringsAux l.length l

theorem sortStrings_cons (x : String) (xs : List String) :
    sortStrings (x :: xs) = (selPass x xs).1 :: sortStrings (selPass x xs).2 := by
  show sortStringsAux (xs.length + 1) (x :: xs) = _
  rw [sortStringsAux]
  rw [sortStrings, selPass_length]

/-- Embeds frameworkDescription (wizard.go lines 533-561). -/
def frameworkDescription (language framework : String) : String :=
  let key := goToLower framework
  if key = "vanilla" then "minimal starter"
  else if key = "cobra" then "CLI app structure"
  else if key = "gin" then "HTTP API server"
  else if key = "gorm" then "ORM database layer"
  else if key = "sqlc" then "SQL code generation"
  else if key = "express" then "Node.js web server"
  else if key = "hono" then "lightweight web framework"
  else if key = "nestjs" then "typed Node framework"
  else if key = "bun" then "Bun runtime server"
  else if key = "fastapi" then "Python API server"
  else if key = "laravel" then "PHP web framework"
  else language ++ " template"

/-- Embeds the listItem struct (wizard.go lines 24-27). -/
structure Item where
  label : String
  description : String
deriving DecidableEq, Repr

/-- Embeds the relevant observable state of a bubbles list.Model: its items
and the highlighted index (Items / Index / Select / SelectedItem). -/
structure SelList where
  items : List Item
  index : Nat
deriving DecidableEq, Repr

/-- SelectedItem: the item under the cursor, none when out of range
(a nil interface value in Go). -/
def SelList.selectedItem (l : SelList) : Option Item := l.items.get? l.index

/-- Embeds the wizard stages (wizard.go lines 33-42). -/
inductive Stage where
  | language | framework | libraries | name | confirm | done
deriving DecidableEq, Repr

/-- Embeds the Result struct (wizard.go lines 17-22). -/
structure WizResult where
  language : String
  framework : String
  name : String
  libraries : List String
deriving DecidableEq, Repr

/-- Go map of string to string slice, embedded as an association list with
first-match lookup; a missing key yields the empty slice, as in Go. -/
def lookupList (m : List (String × List String)) (k : String) : List String :=
  match m.find? (fun p => p.1 == k) with
  | some p => p.2
  | none => []

/-- Go map of string to bool, embedded as an association list; a missing key
yields false, the Go zero value. -/
def lookupBool (m : List (String × Bool)) (k : String) : Bool :=
  match m.find? (fun p => p.1 == k) with
  | some p => p.2
  | none => false

/-- Go map assignment on a string-to-bool map: replaces the first binding of
the key, or appends one when absent. -/
def setBool (m : List (String × Bool)) (k : String) (v : Bool) : List (String × Bool) :=
  match m with
  | [] => [(k, v)]
  | p :: rest => if p.1 = k then (k, v) :: rest else p :: setBool rest k v

/-- Embeds the wizard model (wizard.go lines 44-62), keeping the fields the
state machine reads or writes; pure layout fields (width, height, panel
sizes) and the style records only affect rendering geometry and are omitted. -/
structure Model where
  stage : Stage
  languages : SelList
  framework : SelList
  libraries : SelList
  nameValue : List Char
  result : WizResult
  options : List (String × List String)
  libOptions : List (String × List String)
  selectedLibs : List (String × Bool)
  err : Option String
  titleFrame : Nat
deriving DecidableEq, Repr

/-- Key messages the wizard distinguishes (by msg.String() in wizard.go):
enter, space, the back keys b / left / backspace, the cancel keys esc /
ctrl+c, list navigation up / down, and any other printable rune. -/
inductive Key where
  | enter | space | b | left | backspace | esc | ctrlC | up | down
  | char (c : Char)
deriving DecidableEq, Repr

/-- Messages reaching Update: key presses and the spinner tick that drives
titleFrame (resize messages only touch the omitted layout fields). -/
inductive Msg where
  | key (k : Key)
  | tick
deriving DecidableEq, Repr

/-- Commands the embedded handlers emit: tea.Quit or nothing. -/
inductive Cmd where
  | nothing | quit
deriving DecidableEq, Repr

/-- Cursor movement of a bubbles list.Model: up and down move the highlight
by one, clamped to the ends; other messages leave the cursor alone. -/
def SelList.update (l : SelList) (msg : Msg) : SelList :=
  match msg with
  | .key .up => { l with index := l.index - 1 }
  | .key .down =>
    if l.index + 1 < l.items.length then { l with index := l.index + 1 } else l
  | _ => l

/-- NewWizard (wizard.go line 237): nameInput.CharLimit = 64. -/
def nameCharLimit : Nat := 64

/-- Embeds the value editing of the external bubbles textinput component
under its CharLimit contract: a typed rune is appended only while the value
is below the limit (runes beyond it are discarded), backspace deletes the
last rune, and non-editing keys leave the value unchanged. -/
def textInputUpdate (value : List Char) (k : Key) : List Char :=
  match k with
  | .char c => if value.length < nameCharLimit then value ++ [c] else value
  | .space => if value.length < nameCharLimit then value ++ [' '] else value
  | .b => if value.length < nameCharLimit then value ++ ['b'] else value
  | .backspace => value.dropLast
  | _ => value

/-- Starting framework names of buildFrameworkList (wizard.go lines
454-457): the chosen language's catalog entry, falling back to a single
Vanilla entry when empty. -/
def frameworksFor (options : List (String × List String)) (language : String) : List String :=
  let frameworks := lookupList options language
  if frameworks.length = 0 then ["Vanilla"] else frameworks

/-- Embeds buildFrameworkList (wizard.go lines 453-480): the chosen
language's frameworks, falling back to a single Vanilla entry, deduplicated
case-insensitively and sorted case-insensitively, with the default
framework preselected case-insensitively via selectListItem. -/
def buildFrameworkList (language : String) (options : List (String × List String))
    (defaultFramework : String) : SelList :=
  let frameworks := sortStrings (uniqueStrings (frameworksFor options language))
  let items := frameworks.map fun fw =>
    { label := fw, description := frameworkDescription language fw : Item }
  let index :=
    if defaultFramework = "" then 0
    else match items.findIdx? (fun it => equalFold it.label defaultFramework) with
      | some i => i
      | none => 0
  { items := items, index := index }

/-- Embeds the item construction of buildLibrariesList (wizard.go lines
482-493, equally buildLibraryItems in helpers.go lines 50-63): the library
names of the language::framework key, deduplicated and sorted
case-insensitively, each labelled with its checkbox state. -/
def buildLibraryItems (language framework : String)
    (options : List (String × List String)) (selected : List (String × Bool)) : List Item :=
  let key := language ++ "::" ++ framework
  let libraries := sortStrings (uniqueStrings (lookupList options key))
  libraries.map fun lib =>
    { label := (if lookupBool selected lib then "[x] " else "[ ] ") ++ lib,
      description := "optional package" : Item }

/-- Embeds buildLibrariesList (wizard.go lines 482-504): a fresh list over
the checkbox items, cursor at the first entry. -/
def buildLibrariesList (language framework : String)
    (options : List (String × List String)) (selected : List (String × Bool)) : SelList :=
  { items := buildLibraryItems language framework options selected, index := 0 }

/-- Embeds the language item construction of NewWizard (wizard.go lines
185-200): the catalog map's language keys, sorted case-insensitively but
with no case-insensitive deduplication (Go map keys are only
case-sensitively distinct), each described by its framework count. -/
def buildLanguageItems (options : List (String × List String)) : List Item :=
  let langNames := sortStrings (options.map Prod.fst)
  langNames.map fun lang =>
    let n := (lookupList options lang).length
    { label := lang,
      description := Nat.repr n ++ " " ++ (if n = 1 then "template" else "templates") }

/-- Embeds selectedLibraries (wizard.go lines 725-734, helpers.go lines
127-136): the names mapped to true, sorted case-insensitively. -/
def selectedLibraries (selected : List (String × Bool)) : List String :=
  sortStrings ((selected.filter (fun p => p.2)).map (fun p => p.1))

/-- Embeds updateLanguage (wizard.go lines 349-368). -/
def updateLanguage (m : Model) (msg : Msg) : Model × Cmd :=
  let m := { m with languages := m.languages.update msg }
  match msg with
  | .key .enter =>
    match m.languages.selectedItem with
    | none => ({ m with err := some "no language selected" }, .quit)
    | some item =>
      let result := { m.result with language := item.label }
      let fw := buildFrameworkList item.label m.options m.result.framework
      ({ m with result := result, framework := fw, stage := .framework }, .nothing)
  | _ => (m, .nothing)

/-- Embeds updateFramework (wizard.go lines 370-394). -/
def updateFramework (m : Model) (msg : Msg) : Model × Cmd :=
  let m := { m with framework := m.framework.update msg }
  match msg with
  | .key .enter =>
    match m.framework.selectedItem with
    | none => ({ m with err := some "no framework selected" }, .quit)
    | some item =>
      let result := { m.result with framework := item.label }
      let selected : List (String × Bool) := []
      let libs := buildLibrariesList m.result.language item.label m.libOptions selected
      let m := { m with result := result, selectedLibs := selected, libraries := libs }
      if libs.items.length = 0 then ({ m with stage := .name }, .nothing)
      else ({ m with stage := .libraries }, .nothing)
  | _ => (m, .nothing)

/-- Embeds updateLibraries (wizard.go lines 396-421): space toggles the
highlighted library and rebuilds the checkbox list, restoring the cursor
when still in range; enter advances to the Name stage. -/
def updateLibraries (m : Model) (msg : Msg) : Model × Cmd :=
  let m := { m with libraries := m.libraries.update msg }
  match msg with
  | .key .space =>
    let idx := m.libraries.index
    match m.libraries.selectedItem with
    | some item =>
      let name := goTrimPrefix (goTrimPrefix item.label "[x] ") "[ ] "
      let selected := setBool m.selectedLibs name (! lookupBool m.selectedLibs name)
      let libs := buildLibrariesList m.result.language m.result.framework m.libOptions selected
      let libs := if idx < libs.items.length then { libs with index := idx } else libs
      ({ m with selectedLibs := selected, libraries := libs }, .nothing)
    | none => (m, .nothing)
  | .key .enter => ({ m with stage := .name }, .nothing)
  | _ => (m, .nothing)

/-- Embeds updateName (wizard.go lines 423-441): the text input consumes the
key first; on enter, an empty trimmed value sets the fatal error and quits,
otherwise the trimmed name and the frozen library selection are recorded and
the wizard advances to the Confirm stage. -/
def updateName (m : Model) (msg : Msg) : Model × Cmd :=
  let m := match msg with
    | .key k => { m with nameValue := textInputUpdate m.nameValue k }
    | _ => m
  match msg with
  | .key .enter =>
    let value := goTrimSpace ⟨m.nameValue⟩
    if value = "" then ({ m with err := some "project name is required" }, .quit)
    else
      let result := { m.result with name := value, libraries := selectedLibraries m.selectedLibs }
      ({ m with result := result, stage := .confirm }, .nothing)
  | _ => (m, .nothing)

/-- Embeds updateConfirm (wizard.go lines 443-451). -/
def updateConfirm (m : Model) (msg : Msg) : Model × Cmd :=
  match msg with
  | .key .enter => ({ m with stage := .done }, .quit)
  | _ => (m, .nothing)

/-- Embeds back (wizard.go lines 957-974): one step backwards, skipping the
Libraries stage from Name when the libraries list is empty. -/
def back (m : Model) : Model :=
  match m.stage with
  | .framework => { m with stage := .language }
  | .libraries => { m with stage := .framework }
  | .name =>
    if m.libraries.items.length > 0 then { m with stage := .libraries }
    else { m with stage := .framework }
  | .confirm => { m with stage := .name }
  | _ => m

/-- True exactly for the key strings handled by the back branch of Update
(wizard.go line 278): b, left, backspace. -/
def isBackKey (msg : Msg) : Bool :=
  match msg with
  | .key .b | .key .left | .key .backspace => true
  | _ => false

/-- True exactly for the cancel key strings of Update (wizard.go line 275):
ctrl+c and esc. -/
def isCancelKey (msg : Msg) : Bool :=
  match msg with
  | .key .ctrlC | .key .esc => true
  | _ => false

/-- Dispatch of Update to the current stage's handler (wizard.go lines
303-323). -/
def dispatchStage (m : Model) (msg : Msg) : Model × Cmd :=
  match m.stage with
  | .language => updateLanguage m msg
  | .framework => updateFramework m msg
  | .libraries => updateLibraries m msg
  | .name => updateName m msg
  | .confirm => updateConfirm m msg
  | .done => (m, .quit)

/-- Embeds Update (wizard.go lines 271-324): cancel keys quit with the
cancelled error; back keys navigate backwards except on the Name stage;
a spinner tick increments titleFrame; then the current stage's handler
processes the message. -/
def Update (m : Model) (msg : Msg) : Model × Cmd :=
  if isCancelKey msg then ({ m with err := some "cancelled" }, .quit)
  else if isBackKey msg ∧ m.stage ≠ .name then (back m, .nothing)
  else
    let m := if msg = Msg.tick then { m with titleFrame := m.titleFrame + 1 } else m
    dispatchStage m msg

/-- Folds Update over a message sequence, as the event loop does. -/
def applyMsgs (m : Model) : List Msg → Model
  | [] => m
  | msg :: rest => applyMsgs (Update m msg).1 rest

/-- Embeds asciiArt (animation.go lines 16-28): the raw title art lines. -/
def asciiArt : List String :=
  ["▄███▄ ▄███▄  ▄█▄  █▀▀▀▀ █▀▀▀▀ ▄███▄ █     ▄██▄",
   "▀▄    █     █▀ ▀█ █▀▀   █▀▀   █   █ █     █  █",
   " ▀██▄ █     █▀▀▀█ █     █     █   █ █     █  █",
   "▀███▀ ▀███▀ ▀   ▀ ▀     ▀     ▀███▀ ▀▀▀▀▀ ▀██▀",
   "",
   "        █   █ ▀█▀ ▀▀▀█  ▄█▄  █▀▀▄ ▄██▄        ",
   "        █ █ █  █    █▀ █▀ ▀█ █▀▀▄ █  █        ",
   "        █▄█▄█  █   █▀  █▀▀▀█ █  █ █  █        ",
   "        ▀   ▀ ▀▀▀ █▀▀▀ ▀   ▀ ▀  ▀ ▀██▀        "]

/-- Embeds runeLen (animation.go lines 42-44): the rune count of a string. -/
def runeLen (s : String) : Nat := s.data.length

/-- Embeds artWidth (animation.go lines 31-40): the widest art line. -/
def artWidth : Nat :=
  asciiArt.foldl (fun w line => if runeLen line > w then runeLen line else w) 0

/-- Embeds revealColumns (animation.go line 47). -/
def revealColumns : Nat := 3

/-- Embeds revealTotalTicks (animation.go lines 50-57): ticks to reveal the
full art, rounding the division up. -/
def revealTotalTicks : Nat :=
  artWidth / revealColumns + (if artWidth % revealColumns ≠ 0 then 1 else 0)

/-- Embeds the reveal computation of renderAnimatedTitle (animation.go lines
176-180): revealedCols := frame * revealColumns, clamped to artWidth. -/
def revealedColumns (frame : Nat) : Nat :=
  let revealedCols := frame * revealColumns
  if revealedCols > artWidth then artWidth else revealedCols

/-- Modelled from the spec: the total tick budget of the reveal/spark timer
family of the current wizard, whose scheduling code is absent from these
sources (they retain an always-on spinner tick): the reveal ticks plus two
full border-spark traversal cycles, one cycle being contentWidth + 2 frames. -/
def revealTickBudget (contentWidth : Nat) : Nat :=
  revealTotalTicks + 2 * (contentWidth + 2)

/-- Modelled from the spec: whether a reveal-timer firing at the given (just
incremented) titleFrame schedules a successor tick. The timer family
self-terminates once reveal progress has reached the full art width and the
tick budget has been exceeded. -/
def revealTickSchedulesNext (frame contentWidth : Nat) : Bool :=
  if revealedColumns frame = artWidth ∧ frame > revealTickBudget contentWidth then false
  else true

/-- Embeds stageProgress (helpers.go lines 197-220), with the float64
fractions represented as exact rationals. -/
def stageProgress (m : Model) : ℚ :=
  let hasLibs := m.libraries.items.length > 0
  let totalSteps : ℚ := if hasLibs then 4 else 3
  match m.stage with
  | .language => 0
  | .framework => 1 / totalSteps
  | .libraries => 2 / totalSteps
  | .name => if hasLibs then 3 / totalSteps else 2 / totalSteps
  | .confirm => 1
  | .done => 0

/-- Follows the spec's words, for comparison with stageProgress: the index of
a stage among the applicable steps (Language 0, Framework 1, Libraries 2,
Name next, Confirm last). -/
def stageIndexSpec (s : Stage) (hasLibs : Prop) [Decidable hasLibs] : ℚ :=
  match s with
  | .language => 0
  | .framework => 1
  | .libraries => 2
  | .name => if hasLibs then 3 else 2
  | .confirm => if hasLibs then 4 else 3
  | .done => 0

/-- Follows the spec's words: 3 applicable steps without a library stage,
4 with one. -/
def totalStepsSpec (hasLibs : Prop) [Decidable hasLibs] : ℚ := if hasLibs then 4 else 3

/-- Non-strict companion of keyLt: case-insensitive lexicographic order. -/
def keyLe (a b : String) : Prop := keyLtB b a = false

instance (a b : String) : Decidable (keyLe a b) :=
  inferInstanceAs (Decidable (keyLtB b a = false))

theorem lexLt_irrefl (l : List Char) : lexLt l l = false := by
  induction l with
  | nil => rfl
  | cons a as ih =>
    simp only [lexLt]
    rw [if_neg (by omega), if_neg (by omega)]
    exact ih

theorem lexLt_asymm : ∀ {a b : List Char}, lexLt a b = true → lexLt b a = false := by
  intro a
  induction a with
  | nil =>
    intro b h
    cases b with
    | nil => simp [lexLt] at h
    | cons y ys => rfl
  | cons x xs ih =>
    intro b h
    cases b with
    | nil => simp [lexLt] at h
    | cons y ys =>
      simp only [lexLt] at h ⊢
      by_cases h1 : x.toNat < y.toNat
      · rw [if_neg (by omega), if_pos h1]
      · rw [if_neg h1] at h
        by_cases h2 : y.toNat < x.toNat
        · rw [if_pos h2] at h
          exact absurd h (by simp)
        · rw [if_neg h2] at h
          rw [if_neg h2, if_neg h1]
          exact ih h

theorem lexLt_trans : ∀ {a b c : List Char},
    lexLt a b = true → lexLt b c = true → lexLt a c = true := by
  intro a
  induction a with
  | nil =>
    intro b c hab hbc
    cases c with
    | nil =>
      cases b with
      | nil => simp [lexLt] at hab
      | cons y ys => simp [lexLt] at hbc
    | cons z zs => rfl
  | cons x xs ih =>
    intro b c hab hbc
    cases b with
    | nil => simp [lexLt] at hab
    | cons y ys =>
      cases c with
      | nil => simp [lexLt] at hbc
      | cons z zs =>
        simp only [lexLt] at hab hbc ⊢
        by_cases h1 : x.toNat < y.toNat
        · by_cases h2 : y.toNat < z.toNat
          · rw [if_pos (by omega)]
          · rw [if_neg h2] at hbc
            by_cases h3 : z.toNat < y.toNat
            · rw [if_pos h3] at hbc
              simp at hbc
            · rw [if_pos (by omega)]
        · rw [if_neg h1] at hab
          by_cases h1' : y.toNat < x.toNat
          · rw [if_pos h1'] at hab
            simp at hab
          · rw [if_neg h1'] at hab
            by_cases h2 : y.toNat < z.toNat
            · rw [if_pos (by omega)]
            · rw [if_neg h2] at hbc
              by_cases h3 : z.toNat < y.toNat
              · rw [if_pos h3] at hbc
                simp at hbc
              · rw [if_neg h3] at hbc
                rw [if_neg (by omega), if_neg (by omega)]
                exact ih hab hbc

theorem lexLt_eq_of_both_false : ∀ {a b : List Char},
    lexLt a b = false → lexLt b a = false → a = b := by
  intro a
  induction a with
  | nil =>
    intro b hab hba
    cases b with
    | nil => rfl
    | cons y ys => simp [lexLt] at hab
  | cons x xs ih =>
    intro b hab hba
    cases b with
    | nil => simp [lexLt] at hba
    | cons y ys =>
      simp only [lexLt] at hab hba
      by_cases h1 : x.toNat < y.toNat
      · rw [if_pos h1] at hab
        simp at hab
      · by_cases h2 : y.toNat < x.toNat
        · rw [if_pos h2] at hba
          simp at hba
        · rw [if_neg h1, if_neg h2] at hab
          rw [if_neg h2, if_neg h1] at hba
          have hval : x = y := by
            have h3 : x.toNat = y.toNat := by omega
            exact Char.ext (UInt32.ext h3)
          rw [hval, ih hab hba]

theorem keyLe_refl (a : String) : keyLe a a := lexLt_irrefl _

theorem keyLe_of_keyLt {a b : String} (h : keyLt a b) : keyLe a b := lexLt_asymm h

theorem keyLe_of_not_keyLt {a b : String} (h : ¬ keyLt b a) : keyLe a b := by
  unfold keyLt at h
  unfold keyLe
  simpa using h

theorem keyLe_trans {a b c : String} (hab : keyLe a b) (hbc : keyLe b c) : keyLe a c := by
  unfold keyLe keyLtB at hab hbc ⊢
  cases hac : lexLt (goToLower c).data (goToLower a).data with
  | false => rfl
  | true =>
    exfalso
    cases hba : lexLt (goToLower a).data (goToLower b).data with
    | true =>
      have htr := lexLt_trans hac hba
      rw [htr] at hbc
      exact Bool.noConfusion hbc
    | false =>
      have heq := lexLt_eq_of_both_false hab hba
      rw [heq] at hbc
      rw [hac] at hbc
      exact Bool.noConfusion hbc

theorem selPass_perm (cur : String) (l : List String) :
    List.Perm ((selPass cur l).1 :: (selPass cur l).2) (cur :: l) := by
  induction l generalizing cur with
  | nil => simp [selPass]
  | cons x xs ih =>
    simp only [selPass]
    by_cases h : keyLtB x cur = true
    · rw [if_pos h]
      exact (List.Perm.swap cur (selPass x xs).1 (selPass x xs).2).trans
        (List.Perm.cons cur (ih x))
    · rw [if_neg h]
      exact ((List.Perm.swap x (selPass cur xs).1 (selPass cur xs).2).trans
        (List.Perm.cons x (ih cur))).trans (List.Perm.swap cur x xs)

theorem selPass_min (cur : String) (l : List String) :
    keyLe (selPass cur l).1 cur ∧ ∀ y ∈ (selPass cur l).2, keyLe (selPass cur l).1 y := by
  induction l generalizing cur with
  | nil => exact ⟨keyLe_refl cur, by simp [selPass]⟩
  | cons x xs ih =>
    simp only [selPass]
    by_cases h : keyLtB x cur = true
    · rw [if_pos h]
      obtain ⟨h1, h2⟩ := ih x
      refine ⟨keyLe_trans h1 (keyLe_of_keyLt h), ?_⟩
      intro y hy
      rcases List.mem_cons.1 hy with rfl | hy'
      · exact keyLe_trans h1 (keyLe_of_keyLt h)
      · exact h2 y hy'
    · rw [if_neg h]
      obtain ⟨h1, h2⟩ := ih cur
      refine ⟨h1, ?_⟩
      intro y hy
      rcases List.mem_cons.1 hy with rfl | hy'
      · exact keyLe_trans h1 (keyLe_of_not_keyLt h)
      · exact h2 y hy'

theorem sortStrings_perm_aux (n : Nat) :
    ∀ l : List String, l.length = n → List.Perm (sortStrings l) l := by
  induction n with
  | zero =>
    intro l hn
    cases l with
    | nil => simp [sortStrings, sortStringsAux]
    | cons x xs => simp at hn
  | succ n ih =>
    intro l hn
    cases l with
    | nil => simp [sortStrings, sortStringsAux]
    | cons x xs =>
      rw [sortStrings_cons]
      have h2 : (selPass x xs).2.length = n := by
        rw [selPass_length]
        simpa using hn
      exact (List.Perm.cons _ (ih _ h2)).trans (selPass_perm x xs)

theorem sortStrings_perm (l : List String) : List.Perm (sortStrings l) l :=
  sortStrings_perm_aux l.length l rfl

theorem sortStrings_sorted_aux (n : Nat) :
    ∀ l : List String, l.length = n → List.Pairwise keyLe (sortStrings l) := by
  induction n with
  | zero =>
    intro l hn
    cases l with
    | nil => simp [sortStrings, sortStringsAux]
    | cons x xs => simp at hn
  | succ n ih =>
    intro l hn
    cases l with
    | nil => simp [sortStrings, sortStringsAux]
    | cons x xs =>
      rw [sortStrings_cons]
      have h2 : (selPass x xs).2.length = n := by
        rw [selPass_length]
        simpa using hn
      refine List.Pairwise.cons ?_ (ih _ h2)
      intro y hy
      exact (selPass_min x xs).2 y ((sortStrings_perm _).mem_iff.1 hy)

theorem sortStrings_sorted (l : List String) : List.Pairwise keyLe (sortStrings l) :=
  sortStrings_sorted_aux l.length l rfl

theorem sortStrings_mem {l : List String} {x : String} :
    x ∈ sortStrings l ↔ x ∈ l := (sortStrings_perm l).mem_iff

theorem uniqueStringsAux_sublist (seen : List String) (l : List String) :
    (uniqueStringsAux seen l).Sublist l := by
  induction l generalizing seen with
  | nil => simp [uniqueStringsAux]
  | cons v vs ih =>
    simp only [uniqueStringsAux]
    by_cases h1 : uniqueKey v = ""
    · simp only [if_pos h1]
      exact (ih seen).cons v
    · simp only [if_neg h1]
      by_cases h2 : uniqueKey v ∈ seen
      · simp only [if_pos h2]
        exact (ih seen).cons v
      · simp only [if_neg h2]
        exact (ih (uniqueKey v :: seen)).cons₂ v

theorem uniqueStringsAux_keys (seen : List String) (l : List String) :
    (∀ w ∈ uniqueStringsAux seen l, uniqueKey w ∉ seen) ∧
    ((uniqueStringsAux seen l).map uniqueKey).Nodup := by
  induction l generalizing seen with
  | nil => simp [uniqueStringsAux]
  | cons v vs ih =>
    simp only [uniqueStringsAux]
    by_cases h1 : uniqueKey v = ""
    · simp only [if_pos h1]
      exact ih seen
    · simp only [if_neg h1]
      by_cases h2 : uniqueKey v ∈ seen
      · simp only [if_pos h2]
        exact ih seen
      · simp only [if_neg h2]
        obtain ⟨fresh, nodup⟩ := ih (uniqueKey v :: seen)
        constructor
        · intro w hw
          rcases List.mem_cons.1 hw with rfl | hw'
          · exact h2
          · intro hmem
            exact fresh w hw' (List.mem_cons_of_mem _ hmem)
        · refine List.nodup_cons.2 ⟨?_, nodup⟩
          intro hmem
          obtain ⟨w, hw, hkey⟩ := List.mem_map.1 hmem
          exact fresh w hw (hkey ▸ List.mem_cons_self _ _)

theorem uniqueStringsAux_first (seen : List String) (l : List String)
    (k w : String) (hk : k ≠ "") (hseen : k ∉ seen)
    (hfind : l.find? (fun x => uniqueKey x == k) = some w) :
    w ∈ uniqueStringsAux seen l := by
  induction l generalizing seen with
  | nil => simp [List.find?] at hfind
  | cons v vs ih =>
    simp only [uniqueStringsAux]
    by_cases hv : uniqueKey v = k
    · simp only [List.find?, hv, beq_self_eq_true, Option.some.injEq] at hfind
      subst hfind
      have h1 : ¬ uniqueKey v = "" := by rw [hv]; exact hk
      have h2 : uniqueKey v ∉ seen := by rw [hv]; exact hseen
      simp only [if_neg h1, if_neg h2]
      exact List.mem_cons_self _ _
    · have hb : (uniqueKey v == k) = false := by simp [hv]
      simp only [List.find?, hb] at hfind
      by_cases h1 : uniqueKey v = ""
      · simp only [if_pos h1]
        exact ih seen hseen hfind
      · simp only [if_neg h1]
        by_cases h2 : uniqueKey v ∈ seen
        · simp only [if_pos h2]
          exact ih seen hseen hfind
        · simp only [if_neg h2]
          refine List.mem_cons_of_mem _ (ih (uniqueKey v :: seen) ?_ hfind)
          intro hmem
          rcases List.mem_cons.1 hmem with h | h
          · exact hv h.symm
          · exact hseen h

theorem lookupBool_cons (p : String × Bool) (rest : List (String × Bool)) (x : String) :
    lookupBool (p :: rest) x = if p.1 = x then p.2 else lookupBool rest x := by
  simp only [lookupBool, List.find?]
  by_cases h : p.1 = x
  · simp [h]
  · have hb : (p.1 == x) = false := by simp [h]
    simp [hb, h]

theorem lookupBool_setBool_self (s : List (String × Bool)) (k : String) (v : Bool) :
    lookupBool (setBool s k v) k = v := by
  induction s with
  | nil => simp [setBool, lookupBool_cons, lookupBool, List.find?]
  | cons p rest ih =>
    simp only [setBool]
    by_cases h : p.1 = k
    · simp [h, lookupBool_cons]
    · simp [if_neg h, lookupBool_cons, h, ih]

theorem lookupBool_eq_true_iff {s : List (String × Bool)} {x : String}
    (hnd : (s.map Prod.fst).Nodup) : lookupBool s x = true ↔ (x, true) ∈ s := by
  induction s with
  | nil => simp [lookupBool, List.find?]
  | cons p rest ih =>
    simp only [List.map_cons, List.nodup_cons] at hnd
    obtain ⟨hfresh, hnd'⟩ := hnd
    rw [lookupBool_cons]
    by_cases h : p.1 = x
    · simp only [if_pos h, List.mem_cons]
      constructor
      · intro hv
        left
        cases p with
        | mk a b => simp_all
      · intro hv
        rcases hv with hv | hv
        · cases p with
          | mk a b => simp_all
        · exact absurd (h ▸ List.mem_map.2 ⟨(x, true), hv, rfl⟩) hfresh
    · rw [if_neg h, ih hnd']
      simp only [List.mem_cons]
      constructor
      · exact Or.inr
      · rintro (hv | hv)
        · exfalso
          apply h
          cases p with
          | mk a b => simp_all
        · exact hv

theorem updateLanguage_titleFrame (m : Model) (msg : Msg) :
    (updateLanguage m msg).1.titleFrame = m.titleFrame := by
  cases msg with
  | tick => rfl
  | key k =>
    unfold updateLanguage
    cases k <;> try rfl
    try dsimp only
    split <;> rfl

theorem updateFramework_titleFrame (m : Model) (msg : Msg) :
    (updateFramework m msg).1.titleFrame = m.titleFrame := by
  cases msg with
  | tick => rfl
  | key k =>
    unfold updateFramework
    cases k <;> try rfl
    try dsimp only
    split
    · rfl
    · try dsimp only
      split <;> rfl

theorem updateLibraries_titleFrame (m : Model) (msg : Msg) :
    (updateLibraries m msg).1.titleFrame = m.titleFrame := by
  cases msg with
  | tick => rfl
  | key k =>
    unfold updateLibraries
    cases k <;> try rfl
    try dsimp only
    split <;> rfl

theorem updateName_titleFrame (m : Model) (msg : Msg) :
    (updateName m msg).1.titleFrame = m.titleFrame := by
  cases msg with
  | tick => rfl
  | key k =>
    unfold updateName
    cases k <;> try rfl
    try dsimp only
    split <;> rfl

theorem updateConfirm_titleFrame (m : Model) (msg : Msg) :
    (updateConfirm m msg).1.titleFrame = m.titleFrame := by
  unfold updateConfirm
  split <;> rfl

theorem back_titleFrame (m : Model) : (back m).titleFrame = m.titleFrame := by
  unfold back
  split <;> first | rfl | (split <;> rfl)

theorem dispatchStage_titleFrame (m : Model) (msg : Msg) :
    (dispatchStage m msg).1.titleFrame = m.titleFrame := by
  unfold dispatchStage
  cases h : m.stage <;>
    simp [updateLanguage_titleFrame, updateFramework_titleFrame,
      updateLibraries_titleFrame, updateName_titleFrame, updateConfirm_titleFrame]

theorem update_tick_titleFrame (m : Model) :
    (Update m Msg.tick).1.titleFrame = m.titleFrame + 1 := by
  unfold Update
  rw [if_neg (by simp [isCancelKey]), if_neg (by simp [isBackKey])]
  dsimp only
  rw [if_pos rfl, dispatchStage_titleFrame]

theorem update_key_titleFrame (m : Model) (k : Key) :
    (Update m (Msg.key k)).1.titleFrame = m.titleFrame := by
  unfold Update
  by_cases hc : isCancelKey (Msg.key k) = true
  · rw [if_pos hc]
  · rw [if_neg hc]
    by_cases hb : isBackKey (Msg.key k) = true ∧ m.stage ≠ Stage.name
    · rw [if_pos hb]
      exact back_titleFrame m
    · rw [if_neg hb]
      try dsimp only
      rw [if_neg (by simp), dispatchStage_titleFrame]

/-- A concrete wizard model resting on the Confirm stage, used as a sample
state for closed instantiations. -/
def sampleConfirmModel : Model :=
  { stage := .confirm, languages := ⟨[], 0⟩, framework := ⟨[], 0⟩,
    libraries := ⟨[], 0⟩, nameValue := [],
    result := ⟨"Go", "Vanilla", "demo", []⟩,
    options := [], libOptions := [], selectedLibs := [], err := none,
    titleFrame := 0 }

/-- C7: for every titleFrame, the revealed title column count equals
min(titleFrame times revealColumns, artWidth); it is monotonically
non-decreasing in the frame counter and stays exactly at the art width for
every frame from which the product has reached it. -/
theorem c7_reveal_progress (f g : Nat) (h : f ≤ g) :
    revealedColumns f = min (f * revealColumns) artWidth
    ∧ revealedColumns f ≤ revealedColumns g
    ∧ (artWidth ≤ f * revealColumns → revealedColumns f = artWidth) := by
  have hmul : f * revealColumns ≤ g * revealColumns :=
    Nat.mul_le_mul_right _ h
  unfold revealedColumns
  dsimp only
  refine ⟨?_, ?_, ?_⟩
  · split <;> omega
  · split <;> split <;> omega
  · intro hge
    split <;> omega

theorem c7_witness :
    revealedColumns 5 = min (5 * revealColumns) artWidth
    ∧ revealedColumns 5 ≤ revealedColumns 20
    ∧ (artWidth ≤ 5 * revealColumns → revealedColumns 5 = artWidth) :=
  c7_reveal_progress 5 20 (by decide)

/-- C8: the status-line progress fraction equals the current stage's index
divided by the number of applicable steps, which is 3 when no library stage
applies and 4 otherwise, and the Confirm stage always reports exactly 1. -/
theorem c8_stage_progress (m : Model) (h : m.stage ≠ Stage.done) :
    stageProgress m
      = stageIndexSpec m.stage (m.libraries.items.length > 0)
        / totalStepsSpec (m.libraries.items.length > 0)
    ∧ (m.stage = Stage.confirm → stageProgress m = 1) := by
  cases hs : m.stage with
  | done => exact absurd hs h
  | language =>
    by_cases hl : m.libraries.items.length > 0 <;>
      simp [stageProgress, stageIndexSpec, totalStepsSpec, hs, hl]
  | framework =>
    by_cases hl : m.libraries.items.length > 0 <;>
      simp [stageProgress, stageIndexSpec, totalStepsSpec, hs, hl]
  | libraries =>
    by_cases hl : m.libraries.items.length > 0 <;>
      simp [stageProgress, stageIndexSpec, totalStepsSpec, hs, hl]
  | name =>
    by_cases hl : m.libraries.items.length > 0 <;>
      simp [stageProgress, stageIndexSpec, totalStepsSpec, hs, hl]
  | confirm =>
    by_cases hl : m.libraries.items.length > 0 <;>
      simp [stageProgress, stageIndexSpec, totalStepsSpec, hs, hl]

theorem c8_witness :
    stageProgress sampleConfirmModel
      = stageIndexSpec sampleConfirmModel.stage (sampleConfirmModel.libraries.items.length > 0)
        / totalStepsSpec (sampleConfirmModel.libraries.items.length > 0)
    ∧ (sampleConfirmModel.stage = Stage.confirm → stageProgress sampleConfirmModel = 1) :=
  c8_stage_progress sampleConfirmModel (by decide)

/-- C3: every firing of the tick timer increments titleFrame by exactly one,
no message ever decreases titleFrame, and a reveal-timer firing whose frame
has completed the reveal and exceeded the tick budget (reveal ticks plus two
border-spark cycles) schedules no successor tick. -/
theorem c3_reveal_timer (m : Model) (msg : Msg) (w f : Nat)
    (hdone : revealedColumns f = artWidth)
    (hbudget : revealTickBudget w < f) :
    (Update m Msg.tick).1.titleFrame = m.titleFrame + 1
    ∧ m.titleFrame ≤ (Update m msg).1.titleFrame
    ∧ revealTickSchedulesNext f w = false := by
  refine ⟨update_tick_titleFrame m, ?_, ?_⟩
  · cases msg with
    | tick =>
      rw [update_tick_titleFrame]
      omega
    | key k =>
      rw [update_key_titleFrame]
  · rw [revealTickSchedulesNext, if_pos ⟨hdone, hbudget⟩]

theorem c3_witness :
    (Update sampleConfirmModel Msg.tick).1.titleFrame = sampleConfirmModel.titleFrame + 1
    ∧ sampleConfirmModel.titleFrame ≤ (Update sampleConfirmModel (Msg.key Key.up)).1.titleFrame
    ∧ revealTickSchedulesNext 181 80 = false :=
  c3_reveal_timer sampleConfirmModel (Msg.key Key.up) 80 181 (by decide) (by decide)

/-- A concrete wizard model resting on the Name stage with a
whitespace-only input buffer. -/
def nameStageModel : Model :=
  { stage := .name, languages := ⟨[], 0⟩, framework := ⟨[], 0⟩,
    libraries := ⟨[], 0⟩, nameValue := [' ', ' ', ' '],
    result := ⟨"Go", "Vanilla", "", []⟩,
    options := [], libOptions := [], selectedLibs := [], err := none,
    titleFrame := 0 }

/-- C1, against the code as written: confirming on the Name stage with a
whitespace-only buffer does not keep the wizard alive with an inline
validation error; the embedded updateName records the fatal project-name
error and emits quit, ending the run. The success half of the claim holds:
with buffer my-app, confirm advances to Confirm and records the trimmed
name. -/
theorem c1_empty_name_quits :
    (Update nameStageModel (Msg.key Key.enter)).2 = Cmd.quit
    ∧ (Update nameStageModel (Msg.key Key.enter)).1.err = some "project name is required"
    ∧ (Update { nameStageModel with nameValue := "my-app".data } (Msg.key Key.enter)).1.stage
        = Stage.confirm
    ∧ (Update { nameStageModel with nameValue := "my-app".data } (Msg.key Key.enter)).1.result.name
        = "my-app" := by
  refine ⟨rfl, rfl, rfl, rfl⟩

theorem update_framework_enter (m : Model) (item : Item)
    (hstage : m.stage = Stage.framework)
    (hsel : m.framework.selectedItem = some item) :
    Update m (Msg.key Key.enter)
      = (if (buildLibrariesList m.result.language item.label m.libOptions []).items.length = 0
         then ({ m with
                  result := { m.result with framework := item.label },
                  selectedLibs := [],
                  libraries := buildLibrariesList m.result.language item.label m.libOptions [],
                  stage := Stage.name }, Cmd.nothing)
         else ({ m with
                  result := { m.result with framework := item.label },
                  selectedLibs := [],
                  libraries := buildLibrariesList m.result.language item.label m.libOptions [],
                  stage := Stage.libraries }, Cmd.nothing)) := by
  unfold Update
  rw [if_neg (by decide), if_neg (by simp [isBackKey])]
  dsimp only
  rw [if_neg (by decide)]
  unfold dispatchStage
  rw [hstage]
  unfold updateFramework
  dsimp only [SelList.update]
  rw [hsel]

theorem update_name_enter (m : Model)
    (hstage : m.stage = Stage.name)
    (hne : goTrimSpace ⟨m.nameValue⟩ ≠ "") :
    Update m (Msg.key Key.enter)
      = ({ m with
            result := { m.result with
                        name := goTrimSpace ⟨m.nameValue⟩,
                        libraries := selectedLibraries m.selectedLibs },
            stage := Stage.confirm }, Cmd.nothing) := by
  unfold Update
  rw [if_neg (by decide), if_neg (by simp [isBackKey])]
  dsimp only
  rw [if_neg (by decide)]
  unfold dispatchStage
  rw [hstage]
  unfold updateName
  dsimp only [textInputUpdate]
  rw [if_neg hne]

/-- Toggle step of updateLibraries (wizard.go lines 402-414) once an item is
highlighted: its underlying name has the checkbox tag stripped, its
membership flips, and the list is rebuilt, keeping the cursor if in range. -/
def toggleResult (m : Model) (item : Item) : Model :=
  let name := goTrimPrefix (goTrimPrefix item.label "[x] ") "[ ] "
  let selected := setBool m.selectedLibs name (! lookupBool m.selectedLibs name)
  let libs := buildLibrariesList m.result.language m.result.framework m.libOptions selected
  let libs2 := if m.libraries.index < libs.items.length
    then { libs with index := m.libraries.index } else libs
  { m with selectedLibs := selected, libraries := libs2 }

theorem update_libraries_space (m : Model) (item : Item)
    (hstage : m.stage = Stage.libraries)
    (hsel : m.libraries.selectedItem = some item) :
    Update m (Msg.key Key.space) = (toggleResult m item, Cmd.nothing) := by
  unfold toggleResult
  unfold Update
  rw [if_neg (by decide), if_neg (by simp [isBackKey])]
  dsimp only
  rw [if_neg (by decide)]
  unfold dispatchStage
  rw [hstage]
  unfold updateLibraries
  dsimp only [SelList.update]
  rw [hsel]
  dsimp only
  rw [hstage]

/-- C2: when the chosen (language, framework) pair has an empty library
catalog, confirming from the Framework stage lands directly on the Name
stage, and a back action processed there returns the wizard to the
Framework stage, not Libraries. -/
theorem c2_skip_libraries (m : Model) (item : Item)
    (hstage : m.stage = Stage.framework)
    (hsel : m.framework.selectedItem = some item)
    (hempty : lookupList m.libOptions (m.result.language ++ "::" ++ item.label) = []) :
    (Update m (Msg.key Key.enter)).1.stage = Stage.name
    ∧ (back (Update m (Msg.key Key.enter)).1).stage = Stage.framework := by
  have hitems : (buildLibrariesList m.result.language item.label m.libOptions []).items = [] := by
    simp [buildLibrariesList, buildLibraryItems, hempty, uniqueStrings, uniqueStringsAux,
      sortStrings, sortStringsAux]
  rw [update_framework_enter m item hstage hsel]
  rw [if_pos (by rw [hitems]; rfl)]
  refine ⟨rfl, ?_⟩
  unfold back
  dsimp only
  rw [hitems]
  rfl

/-- A concrete framework-stage model over an empty library catalog. -/
def emptyCatalogModel : Model :=
  { stage := .framework, languages := ⟨[⟨"Go", "1 template"⟩], 0⟩,
    framework := ⟨[⟨"Vanilla", "minimal starter"⟩], 0⟩,
    libraries := ⟨[], 0⟩, nameValue := [],
    result := ⟨"Go", "Vanilla", "", []⟩,
    options := [("Go", ["Vanilla"])], libOptions := [], selectedLibs := [],
    err := none, titleFrame := 0 }

theorem c2_witness :
    (Update emptyCatalogModel (Msg.key Key.enter)).1.stage = Stage.name
    ∧ (back (Update emptyCatalogModel (Msg.key Key.enter)).1).stage = Stage.framework :=
  c2_skip_libraries emptyCatalogModel ⟨"Vanilla", "minimal starter"⟩ rfl rfl rfl

/-- C4: confirming a highlighted framework records the chosen framework,
resets the selected-libraries set to empty, and advances to Libraries when
libraries exist for the chosen pair, otherwise directly to Name. -/
theorem c4_framework_confirm (m : Model) (item : Item)
    (hstage : m.stage = Stage.framework)
    (hsel : m.framework.selectedItem = some item) :
    (Update m (Msg.key Key.enter)).1.result.framework = item.label
    ∧ (Update m (Msg.key Key.enter)).1.selectedLibs = []
    ∧ (sortStrings (uniqueStrings
          (lookupList m.libOptions (m.result.language ++ "::" ++ item.label))) = []
        → (Update m (Msg.key Key.enter)).1.stage = Stage.name)
    ∧ (sortStrings (uniqueStrings
          (lookupList m.libOptions (m.result.language ++ "::" ++ item.label))) ≠ []
        → (Update m (Msg.key Key.enter)).1.stage = Stage.libraries) := by
  rw [update_framework_enter m item hstage hsel]
  have hlen : (buildLibrariesList m.result.language item.label m.libOptions []).items.length
      = (sortStrings (uniqueStrings
          (lookupList m.libOptions (m.result.language ++ "::" ++ item.label)))).length := by
    simp [buildLibrariesList, buildLibraryItems]
  refine ⟨?_, ?_, ?_, ?_⟩
  · split <;> rfl
  · split <;> rfl
  · intro h
    rw [if_pos (by rw [hlen, h]; rfl)]
  · intro h
    have hne : ¬ (buildLibrariesList m.result.language item.label m.libOptions []).items.length = 0 := by
      rw [hlen]
      simpa [List.length_eq_zero] using h
    rw [if_neg hne]

/-- A concrete framework-stage model whose chosen pair has two libraries. -/
def withLibsModel : Model :=
  { stage := .framework, languages := ⟨[⟨"Go", "1 template"⟩], 0⟩,
    framework := ⟨[⟨"Gin", "HTTP API server"⟩], 0⟩,
    libraries := ⟨[], 0⟩, nameValue := [],
    result := ⟨"Go", "Vanilla", "", []⟩,
    options := [("Go", ["Gin"])],
    libOptions := [("Go::Gin", ["Zap", "Gorm"])], selectedLibs := [],
    err := none, titleFrame := 0 }

theorem c4_witness :
    (Update withLibsModel (Msg.key Key.enter)).1.result.framework = "Gin"
    ∧ (Update withLibsModel (Msg.key Key.enter)).1.selectedLibs = []
    ∧ (sortStrings (uniqueStrings
          (lookupList withLibsModel.libOptions
            (withLibsModel.result.language ++ "::" ++ "Gin"))) = []
        → (Update withLibsModel (Msg.key Key.enter)).1.stage = Stage.name)
    ∧ (sortStrings (uniqueStrings
          (lookupList withLibsModel.libOptions
            (withLibsModel.result.language ++ "::" ++ "Gin"))) ≠ []
        → (Update withLibsModel (Msg.key Key.enter)).1.stage = Stage.libraries) :=
  c4_framework_confirm withLibsModel ⟨"Gin", "HTTP API server"⟩ rfl rfl

theorem buildFrameworkList_labels (language : String)
    (options : List (String × List String)) (dflt : String) :
    (buildFrameworkList language options dflt).items.map Item.label
      = sortStrings (uniqueStrings (frameworksFor options language)) := by
  unfold buildFrameworkList
  dsimp only
  rw [List.map_map]
  exact List.map_id _

/-- The Go scenario model: a language list holding Go, whose catalog lists
Vanilla and Cobra with case-varying repeats. -/
def goScenarioModel : Model :=
  { stage := .language,
    languages := ⟨[⟨"Go", "2 templates"⟩], 0⟩,
    framework := ⟨[], 0⟩, libraries := ⟨[], 0⟩, nameValue := [],
    result := ⟨"", "Vanilla", "", []⟩,
    options := [("Go", ["Vanilla", "Cobra", "vanilla", "Cobra"])],
    libOptions := [], selectedLibs := [], err := none, titleFrame := 0 }

theorem buildLibraryItems_labels (language framework : String)
    (options : List (String × List String)) (selected : List (String × Bool)) :
    (buildLibraryItems language framework options selected).map Item.label
      = (sortStrings (uniqueStrings
          (lookupList options (language ++ "::" ++ framework)))).map
          (fun lib => (if lookupBool selected lib then "[x] " else "[ ] ") ++ lib) := by
  unfold buildLibraryItems
  dsimp only
  rw [List.map_map]
  rfl

theorem buildLanguageItems_labels (options : List (String × List String)) :
    (buildLanguageItems options).map Item.label = sortStrings (options.map Prod.fst) := by
  unfold buildLanguageItems
  dsimp only
  rw [List.map_map]
  exact List.map_id _

/-- C6 counterexample: a catalog listing the same language under two casings
produces a language list showing both entries — NewWizard (wizard.go lines
185-200) builds the language list from the raw map keys with no
case-insensitive deduplication, so its displayed labels can repeat
case-insensitively. -/
theorem c6_counterexample :
    (buildLanguageItems [("Go", ["Vanilla"]), ("GO", ["Vanilla"])]).map Item.label
      = ["Go", "GO"]
    ∧ ¬ (((buildLanguageItems [("Go", ["Vanilla"]), ("GO", ["Vanilla"])]).map
        Item.label).map uniqueKey).Nodup :=
  ⟨by decide, by decide⟩

/-- C6 (amended): the framework and libraries selection lists are
deduplicated case-insensitively with the first occurrence of each label
kept and displayed in case-insensitive lexicographic order; the language
list is displayed in case-insensitive lexicographic order but holds the
catalog's case-sensitively distinct keys without case-insensitive
deduplication; and confirming Go in the scenario catalog yields exactly the
list Cobra, Vanilla. -/
theorem c6_selection_lists_amended (options libOptions : List (String × List String))
    (selected : List (String × Bool))
    (language framework dflt v w v2 w2 : String)
    (hk : uniqueKey v ≠ "")
    (hfirst : (frameworksFor options language).find?
        (fun x => uniqueKey x == uniqueKey v) = some w)
    (hk2 : uniqueKey v2 ≠ "")
    (hfirst2 : (lookupList libOptions (language ++ "::" ++ framework)).find?
        (fun x => uniqueKey x == uniqueKey v2) = some w2) :
    List.Pairwise keyLe ((buildFrameworkList language options dflt).items.map Item.label)
    ∧ (((buildFrameworkList language options dflt).items.map Item.label).map uniqueKey).Nodup
    ∧ w ∈ (buildFrameworkList language options dflt).items.map Item.label
    ∧ (buildLibraryItems language framework libOptions selected).map Item.label
        = (sortStrings (uniqueStrings
            (lookupList libOptions (language ++ "::" ++ framework)))).map
            (fun lib => (if lookupBool selected lib then "[x] " else "[ ] ") ++ lib)
    ∧ List.Pairwise keyLe (sortStrings (uniqueStrings
        (lookupList libOptions (language ++ "::" ++ framework))))
    ∧ ((sortStrings (uniqueStrings
        (lookupList libOptions (language ++ "::" ++ framework)))).map uniqueKey).Nodup
    ∧ w2 ∈ sortStrings (uniqueStrings (lookupList libOptions (language ++ "::" ++ framework)))
    ∧ List.Pairwise keyLe ((buildLanguageItems options).map Item.label)
    ∧ (Update goScenarioModel (Msg.key Key.enter)).1.stage = Stage.framework
    ∧ ((Update goScenarioModel (Msg.key Key.enter)).1.framework.items.map Item.label
        = ["Cobra", "Vanilla"]) := by
  rw [buildFrameworkList_labels, buildLanguageItems_labels]
  refine ⟨sortStrings_sorted _, ?_, ?_, buildLibraryItems_labels _ _ _ _,
    sortStrings_sorted _, ?_, ?_, sortStrings_sorted _, by decide, by decide⟩
  · exact ((sortStrings_perm _).map uniqueKey).nodup_iff.2 (uniqueStringsAux_keys [] _).2
  · exact sortStrings_mem.2
      (uniqueStringsAux_first [] _ (uniqueKey v) w hk (by simp) hfirst)
  · exact ((sortStrings_perm _).map uniqueKey).nodup_iff.2 (uniqueStringsAux_keys [] _).2
  · exact sortStrings_mem.2
      (uniqueStringsAux_first [] _ (uniqueKey v2) w2 hk2 (by simp) hfirst2)

theorem c6_amended_witness :
    List.Pairwise keyLe
      ((buildFrameworkList "Go" [("Go", ["Vanilla", "Cobra", "vanilla"])] "").items.map Item.label)
    ∧ (((buildFrameworkList "Go" [("Go", ["Vanilla", "Cobra", "vanilla"])] "").items.map
        Item.label).map uniqueKey).Nodup
    ∧ "Vanilla" ∈ (buildFrameworkList "Go" [("Go", ["Vanilla", "Cobra", "vanilla"])] "").items.map
        Item.label
    ∧ (buildLibraryItems "Go" "Gin" [("Go::Gin", ["Zap", "zap", "Gorm"])] []).map Item.label
        = (sortStrings (uniqueStrings
            (lookupList [("Go::Gin", ["Zap", "zap", "Gorm"])] ("Go" ++ "::" ++ "Gin")))).map
            (fun lib => (if lookupBool [] lib then "[x] " else "[ ] ") ++ lib)
    ∧ List.Pairwise keyLe (sortStrings (uniqueStrings
        (lookupList [("Go::Gin", ["Zap", "zap", "Gorm"])] ("Go" ++ "::" ++ "Gin"))))
    ∧ ((sortStrings (uniqueStrings
        (lookupList [("Go::Gin", ["Zap", "zap", "Gorm"])] ("Go" ++ "::" ++ "Gin")))).map
          uniqueKey).Nodup
    ∧ "Zap" ∈ sortStrings (uniqueStrings
        (lookupList [("Go::Gin", ["Zap", "zap", "Gorm"])] ("Go" ++ "::" ++ "Gin")))
    ∧ List.Pairwise keyLe
        ((buildLanguageItems [("Go", ["Vanilla", "Cobra", "vanilla"])]).map Item.label)
    ∧ (Update goScenarioModel (Msg.key Key.enter)).1.stage = Stage.framework
    ∧ ((Update goScenarioModel (Msg.key Key.enter)).1.framework.items.map Item.label
        = ["Cobra", "Vanilla"]) :=
  c6_selection_lists_amended [("Go", ["Vanilla", "Cobra", "vanilla"])]
    [("Go::Gin", ["Zap", "zap", "Gorm"])] [] "Go" "Gin" "" "vanilla" "Vanilla" "zap" "Zap"
    (by decide) (by decide) (by decide) (by decide)

theorem length_dropWhile_le (p : Char → Bool) (l : List Char) :
    (l.dropWhile p).length ≤ l.length := by
  induction l with
  | nil => simp [List.dropWhile]
  | cons a as ih =>
    rw [List.dropWhile]
    cases p a with
    | true =>
      simp only []
      exact Nat.le_trans ih (Nat.le_succ _)
    | false => simp

theorem goTrimSpace_length_le (s : String) : (goTrimSpace s).length ≤ s.length := by
  show (trimSpaceList s.data).length ≤ s.data.length
  unfold trimSpaceList
  rw [List.length_reverse]
  calc ((s.data.dropWhile isGoSpace).reverse.dropWhile isGoSpace).length
      ≤ (s.data.dropWhile isGoSpace).reverse.length := length_dropWhile_le _ _
    _ = (s.data.dropWhile isGoSpace).length := List.length_reverse _
    _ ≤ s.data.length := length_dropWhile_le _ _

theorem textInputUpdate_length {value : List Char} (k : Key)
    (h : value.length ≤ nameCharLimit) :
    (textInputUpdate value k).length ≤ nameCharLimit := by
  have hif : ∀ c : Char,
      (if value.length < nameCharLimit then value ++ [c] else value).length ≤ nameCharLimit := by
    intro c
    split
    · simp only [List.length_append, List.length_singleton]
      omega
    · exact h
  cases k with
  | space => exact hif ' '
  | b => exact hif 'b'
  | backspace =>
    show value.dropLast.length ≤ nameCharLimit
    rw [List.length_dropLast]
    omega
  | char c => exact hif c
  | enter => exact h
  | left => exact h
  | esc => exact h
  | ctrlC => exact h
  | up => exact h
  | down => exact h

theorem updateLanguage_preserves (m : Model) (msg : Msg) :
    (updateLanguage m msg).1.nameValue = m.nameValue
    ∧ (updateLanguage m msg).1.result.name = m.result.name := by
  cases msg with
  | tick => exact ⟨rfl, rfl⟩
  | key k =>
    unfold updateLanguage
    cases k <;> try exact ⟨rfl, rfl⟩
    refine ⟨?_, ?_⟩ <;> (try dsimp only) <;> (split <;> rfl)

theorem updateFramework_preserves (m : Model) (msg : Msg) :
    (updateFramework m msg).1.nameValue = m.nameValue
    ∧ (updateFramework m msg).1.result.name = m.result.name := by
  cases msg with
  | tick => exact ⟨rfl, rfl⟩
  | key k =>
    unfold updateFramework
    cases k <;> try exact ⟨rfl, rfl⟩
    refine ⟨?_, ?_⟩ <;> (try dsimp only) <;> split
    · rfl
    · split <;> rfl
    · rfl
    · split <;> rfl

theorem updateLibraries_preserves (m : Model) (msg : Msg) :
    (updateLibraries m msg).1.nameValue = m.nameValue
    ∧ (updateLibraries m msg).1.result.name = m.result.name := by
  cases msg with
  | tick => exact ⟨rfl, rfl⟩
  | key k =>
    unfold updateLibraries
    cases k <;> try exact ⟨rfl, rfl⟩
    refine ⟨?_, ?_⟩ <;> (try dsimp only) <;> (split <;> rfl)

theorem updateConfirm_preserves (m : Model) (msg : Msg) :
    (updateConfirm m msg).1.nameValue = m.nameValue
    ∧ (updateConfirm m msg).1.result.name = m.result.name := by
  unfold updateConfirm
  split <;> exact ⟨rfl, rfl⟩

theorem back_preserves (m : Model) :
    (back m).nameValue = m.nameValue ∧ (back m).result.name = m.result.name := by
  unfold back
  refine ⟨?_, ?_⟩ <;> (split <;> first | rfl | (split <;> rfl))

theorem updateName_limit (m : Model) (msg : Msg)
    (h1 : m.nameValue.length ≤ nameCharLimit)
    (h2 : m.result.name.length ≤ nameCharLimit) :
    (updateName m msg).1.nameValue.length ≤ nameCharLimit
    ∧ (updateName m msg).1.result.name.length ≤ nameCharLimit := by
  cases msg with
  | tick => exact ⟨h1, h2⟩
  | key k =>
    have hval : (textInputUpdate m.nameValue k).length ≤ nameCharLimit :=
      textInputUpdate_length k h1
    unfold updateName
    cases k <;> try exact ⟨hval, h2⟩
    try dsimp only
    split
    · exact ⟨textInputUpdate_length Key.enter h1, h2⟩
    · refine ⟨textInputUpdate_length Key.enter h1, ?_⟩
      show (goTrimSpace ⟨textInputUpdate m.nameValue Key.enter⟩).length ≤ nameCharLimit
      exact Nat.le_trans (goTrimSpace_length_le _)
        (textInputUpdate_length Key.enter h1)

theorem dispatchStage_limit (m : Model) (msg : Msg)
    (h1 : m.nameValue.length ≤ nameCharLimit)
    (h2 : m.result.name.length ≤ nameCharLimit) :
    (dispatchStage m msg).1.nameValue.length ≤ nameCharLimit
    ∧ (dispatchStage m msg).1.result.name.length ≤ nameCharLimit := by
  unfold dispatchStage
  cases hs : m.stage
  · obtain ⟨e1, e2⟩ := updateLanguage_preserves m msg
    rw [e1, e2]
    exact ⟨h1, h2⟩
  · obtain ⟨e1, e2⟩ := updateFramework_preserves m msg
    rw [e1, e2]
    exact ⟨h1, h2⟩
  · obtain ⟨e1, e2⟩ := updateLibraries_preserves m msg
    rw [e1, e2]
    exact ⟨h1, h2⟩
  · exact updateName_limit m msg h1 h2
  · obtain ⟨e1, e2⟩ := updateConfirm_preserves m msg
    rw [e1, e2]
    exact ⟨h1, h2⟩
  · exact ⟨h1, h2⟩

theorem update_limit (m : Model) (msg : Msg)
    (h1 : m.nameValue.length ≤ nameCharLimit)
    (h2 : m.result.name.length ≤ nameCharLimit) :
    (Update m msg).1.nameValue.length ≤ nameCharLimit
    ∧ (Update m msg).1.result.name.length ≤ nameCharLimit := by
  unfold Update
  by_cases hc : isCancelKey msg = true
  · rw [if_pos hc]
    exact ⟨h1, h2⟩
  · rw [if_neg hc]
    by_cases hb : isBackKey msg = true ∧ m.stage ≠ Stage.name
    · rw [if_pos hb]
      obtain ⟨e1, e2⟩ := back_preserves m
      show (back m).nameValue.length ≤ nameCharLimit
        ∧ (back m).result.name.length ≤ nameCharLimit
      rw [e1, e2]
      exact ⟨h1, h2⟩
    · rw [if_neg hb]
      dsimp only
      by_cases ht : msg = Msg.tick
      · rw [if_pos ht]
        exact dispatchStage_limit _ _ h1 h2
      · rw [if_neg ht]
        exact dispatchStage_limit _ _ h1 h2

theorem applyMsgs_limit (msgs : List Msg) : ∀ m : Model,
    m.nameValue.length ≤ nameCharLimit → m.result.name.length ≤ nameCharLimit →
    (applyMsgs m msgs).nameValue.length ≤ nameCharLimit
    ∧ (applyMsgs m msgs).result.name.length ≤ nameCharLimit := by
  induction msgs with
  | nil =>
    intro m h1 h2
    exact ⟨h1, h2⟩
  | cons msg rest ih =>
    intro m h1 h2
    obtain ⟨h1', h2'⟩ := update_limit m msg h1 h2
    exact ih _ h1' h2'

/-- C9: the name input carries a 64-rune CharLimit: runes typed while the
buffer sits at the limit are discarded, and over every key-message sequence
from a state within the limit, both the buffer and the recorded result name
stay at 64 runes or fewer. -/
theorem c9_name_char_limit (m0 : Model) (msgs : List Msg) (c : Char)
    (h1 : m0.nameValue.length ≤ nameCharLimit)
    (h2 : m0.result.name.length ≤ nameCharLimit) :
    nameCharLimit = 64
    ∧ (applyMsgs m0 msgs).nameValue.length ≤ nameCharLimit
    ∧ (applyMsgs m0 msgs).result.name.length ≤ nameCharLimit
    ∧ (∀ m : Model, m.stage = Stage.name → m.nameValue.length = nameCharLimit →
        (Update m (Msg.key (Key.char c))).1.nameValue = m.nameValue) := by
  obtain ⟨ha, hb⟩ := applyMsgs_limit msgs m0 h1 h2
  refine ⟨rfl, ha, hb, ?_⟩
  intro m hs hl
  unfold Update
  rw [if_neg (by simp [isCancelKey]), if_neg (by simp [isBackKey])]
  dsimp only
  rw [if_neg (by simp)]
  unfold dispatchStage
  rw [hs]
  unfold updateName
  simp [textInputUpdate, hl]

theorem c9_witness :
    nameCharLimit = 64
    ∧ (applyMsgs nameStageModel [Msg.key (Key.char 'a')]).nameValue.length ≤ nameCharLimit
    ∧ (applyMsgs nameStageModel [Msg.key (Key.char 'a')]).result.name.length ≤ nameCharLimit
    ∧ (∀ m : Model, m.stage = Stage.name → m.nameValue.length = nameCharLimit →
        (Update m (Msg.key (Key.char 'x'))).1.nameValue = m.nameValue) :=
  c9_name_char_limit nameStageModel [Msg.key (Key.char 'a')] 'x' (by decide) (by decide)

theorem mem_selectedLibraries {s : List (String × Bool)} {x : String}
    (hnd : (s.map Prod.fst).Nodup) :
    x ∈ selectedLibraries s ↔ lookupBool s x = true := by
  rw [selectedLibraries, sortStrings_mem, lookupBool_eq_true_iff hnd]
  constructor
  · intro hx
    obtain ⟨p, hp, hpx⟩ := List.mem_map.1 hx
    obtain ⟨hps, hpt⟩ := List.mem_filter.1 hp
    cases p with
    | mk a b =>
      simp only at hpx hpt
      subst hpx
      cases b with
      | true => exact hps
      | false => exact absurd hpt (by simp)
  · intro hmem
    exact List.mem_map.2 ⟨(x, true), List.mem_filter.2 ⟨hmem, rfl⟩, rfl⟩

/-- C10: on a successful advance from the Name stage, the recorded libraries
are exactly the names whose membership in the selected set is true at that
moment, arranged in case-insensitive lexicographic ascending order. -/
theorem c10_result_libraries (m : Model) (x : String)
    (hstage : m.stage = Stage.name)
    (hname : goTrimSpace ⟨m.nameValue⟩ ≠ "")
    (hnd : (m.selectedLibs.map Prod.fst).Nodup) :
    (Update m (Msg.key Key.enter)).1.stage = Stage.confirm
    ∧ (Update m (Msg.key Key.enter)).1.result.libraries = selectedLibraries m.selectedLibs
    ∧ (x ∈ (Update m (Msg.key Key.enter)).1.result.libraries
        ↔ lookupBool m.selectedLibs x = true)
    ∧ List.Pairwise keyLe (Update m (Msg.key Key.enter)).1.result.libraries := by
  rw [update_name_enter m hstage hname]
  exact ⟨rfl, rfl, mem_selectedLibraries hnd, sortStrings_sorted _⟩

/-- A concrete Name-stage model with one library toggled on and one off. -/
def namedLibsModel : Model :=
  { stage := .name, languages := ⟨[], 0⟩, framework := ⟨[], 0⟩,
    libraries := ⟨[], 0⟩, nameValue := "app".data,
    result := ⟨"Go", "Gin", "", []⟩,
    options := [], libOptions := [("Go::Gin", ["Zap", "Gorm"])],
    selectedLibs := [("Zap", true), ("Gorm", false)], err := none,
    titleFrame := 0 }

theorem c10_witness :
    (Update namedLibsModel (Msg.key Key.enter)).1.stage = Stage.confirm
    ∧ (Update namedLibsModel (Msg.key Key.enter)).1.result.libraries
        = selectedLibraries namedLibsModel.selectedLibs
    ∧ ("Zap" ∈ (Update namedLibsModel (Msg.key Key.enter)).1.result.libraries
        ↔ lookupBool namedLibsModel.selectedLibs "Zap" = true)
    ∧ List.Pairwise keyLe (Update namedLibsModel (Msg.key Key.enter)).1.result.libraries :=
  c10_result_libraries namedLibsModel "Zap" (by decide) (by decide) (by decide)

theorem trimPrefix_xTag (lib : String) : goTrimPrefix ("[x] " ++ lib) "[x] " = lib := rfl

theorem trimPrefix_blankTag (lib : String) : goTrimPrefix ("[ ] " ++ lib) "[ ] " = lib := rfl

theorem xTag_not_prefix_blank (lib : String) :
    goHasPrefix ("[ ] " ++ lib) "[x] " = false := rfl

/-- Stripping both checkbox tags from a checkbox label recovers the library
name, as updateLibraries does, provided the name does not itself begin with
a blank checkbox tag. -/
theorem checkbox_name (sel : Bool) (lib : String)
    (hpre : goHasPrefix lib "[ ] " = false) :
    goTrimPrefix (goTrimPrefix ((if sel then "[x] " else "[ ] ") ++ lib) "[x] ") "[ ] "
      = lib := by
  cases sel with
  | false =>
    show goTrimPrefix (goTrimPrefix ("[ ] " ++ lib) "[x] ") "[ ] " = lib
    rw [show goTrimPrefix ("[ ] " ++ lib) "[x] " = "[ ] " ++ lib from by
      unfold goTrimPrefix
      rw [xTag_not_prefix_blank]
      rfl]
    exact trimPrefix_blankTag lib
  | true =>
    show goTrimPrefix (goTrimPrefix ("[x] " ++ lib) "[x] ") "[ ] " = lib
    rw [trimPrefix_xTag]
    unfold goTrimPrefix
    rw [hpre]
    rfl

theorem tag_append_ne (lib : String) : ("[x] " ++ lib) ≠ ("[ ] " ++ lib) := by
  intro h
  have h1 : some 'x' = some ' ' := congrArg (fun s : String => s.data.get? 1) h
  exact absurd (Option.some.inj h1) (by decide)

theorem buildLibraryItems_get (language framework : String)
    (options : List (String × List String)) (selected : List (String × Bool))
    (i : Nat) (lib : String)
    (h : (sortStrings (uniqueStrings
        (lookupList options (language ++ "::" ++ framework)))).get? i = some lib) :
    (buildLibraryItems language framework options selected).get? i
      = some ⟨(if lookupBool selected lib then "[x] " else "[ ] ") ++ lib,
              "optional package"⟩ := by
  unfold buildLibraryItems
  dsimp only
  rw [List.get?_map, h]
  rfl

theorem buildLibraryItems_length (language framework : String)
    (options : List (String × List String)) (selected : List (String × Bool)) :
    (buildLibraryItems language framework options selected).length
      = (sortStrings (uniqueStrings
          (lookupList options (language ++ "::" ++ framework)))).length := by
  unfold buildLibraryItems
  dsimp only
  rw [List.length_map]

theorem toggleResult_eq (m : Model) (item : Item) (lib : String)
    (hname : goTrimPrefix (goTrimPrefix item.label "[x] ") "[ ] " = lib)
    (hidx : m.libraries.index < (sortStrings (uniqueStrings
        (lookupList m.libOptions (m.result.language ++ "::" ++ m.result.framework)))).length) :
    toggleResult m item
      = { m with
          selectedLibs := setBool m.selectedLibs lib (! lookupBool m.selectedLibs lib),
          libraries :=
            { items := buildLibraryItems m.result.language m.result.framework m.libOptions
                (setBool m.selectedLibs lib (! lookupBool m.selectedLibs lib)),
              index := m.libraries.index } } := by
  unfold toggleResult
  rw [hname]
  dsimp only
  rw [if_pos (by rw [show (buildLibrariesList m.result.language m.result.framework m.libOptions
      (setBool m.selectedLibs lib (! lookupBool m.selectedLibs lib))).items.length
        = (sortStrings (uniqueStrings (lookupList m.libOptions
            (m.result.language ++ "::" ++ m.result.framework)))).length
    from buildLibraryItems_length _ _ _ _]; exact hidx)]
  rfl

/-- C5: toggling the same highlighted library twice restores its membership
in the selected set; each single toggle flips it and rebuilds the checkbox
labels preserving the highlighted index; the checkbox label of that item
differs between the two intermediate states. -/
theorem c5_toggle_twice (m : Model) (lib : String)
    (hstage : m.stage = Stage.libraries)
    (hitems : m.libraries.items
      = buildLibraryItems m.result.language m.result.framework m.libOptions m.selectedLibs)
    (hlib : (sortStrings (uniqueStrings (lookupList m.libOptions
        (m.result.language ++ "::" ++ m.result.framework)))).get? m.libraries.index
        = some lib)
    (hpre : goHasPrefix lib "[ ] " = false) :
    lookupBool (applyMsgs m [Msg.key Key.space]).selectedLibs lib
        = ! lookupBool m.selectedLibs lib
    ∧ lookupBool (applyMsgs m [Msg.key Key.space, Msg.key Key.space]).selectedLibs lib
        = lookupBool m.selectedLibs lib
    ∧ (applyMsgs m [Msg.key Key.space]).libraries.index = m.libraries.index
    ∧ (applyMsgs m [Msg.key Key.space, Msg.key Key.space]).libraries.index
        = m.libraries.index
    ∧ (applyMsgs m [Msg.key Key.space]).libraries.items.get? m.libraries.index
        ≠ (applyMsgs m [Msg.key Key.space, Msg.key Key.space]).libraries.items.get?
            m.libraries.index := by
  have hidx : m.libraries.index < (sortStrings (uniqueStrings
      (lookupList m.libOptions (m.result.language ++ "::" ++ m.result.framework)))).length :=
    (List.get?_eq_some.1 hlib).1
  have hsel0 : m.libraries.selectedItem
      = some ⟨(if lookupBool m.selectedLibs lib then "[x] " else "[ ] ") ++ lib,
              "optional package"⟩ := by
    rw [SelList.selectedItem, hitems]
    exact buildLibraryItems_get _ _ _ _ _ _ hlib
  have hstep1 : Update m (Msg.key Key.space)
      = (toggleResult m ⟨(if lookupBool m.selectedLibs lib then "[x] " else "[ ] ") ++ lib,
          "optional package"⟩, Cmd.nothing) :=
    update_libraries_space m _ hstage hsel0
  have htog1 := toggleResult_eq m
    ⟨(if lookupBool m.selectedLibs lib then "[x] " else "[ ] ") ++ lib, "optional package"⟩
    lib (checkbox_name _ lib hpre) hidx
  have hm1 : (Update m (Msg.key Key.space)).1
      = { m with
          selectedLibs := setBool m.selectedLibs lib (! lookupBool m.selectedLibs lib),
          libraries :=
            { items := buildLibraryItems m.result.language m.result.framework m.libOptions
                (setBool m.selectedLibs lib (! lookupBool m.selectedLibs lib)),
              index := m.libraries.index } } := by
    rw [hstep1]
    exact htog1
  set s1 := setBool m.selectedLibs lib (! lookupBool m.selectedLibs lib) with hs1
  have hlook1 : lookupBool s1 lib = ! lookupBool m.selectedLibs lib :=
    lookupBool_setBool_self _ _ _
  set m1 : Model := { m with
      selectedLibs := s1,
      libraries :=
        { items := buildLibraryItems m.result.language m.result.framework m.libOptions s1,
          index := m.libraries.index } } with hm1def
  have hsel1 : m1.libraries.selectedItem
      = some ⟨(if lookupBool s1 lib then "[x] " else "[ ] ") ++ lib, "optional package"⟩ := by
    show (buildLibraryItems m.result.language m.result.framework m.libOptions s1).get?
        m.libraries.index = _
    exact buildLibraryItems_get _ _ _ _ _ _ hlib
  have hstep2 : Update m1 (Msg.key Key.space)
      = (toggleResult m1 ⟨(if lookupBool s1 lib then "[x] " else "[ ] ") ++ lib,
          "optional package"⟩, Cmd.nothing) :=
    update_libraries_space m1 _ (by rw [hm1def]; exact hstage) hsel1
  have htog2 := toggleResult_eq m1
    ⟨(if lookupBool s1 lib then "[x] " else "[ ] ") ++ lib, "optional package"⟩
    lib (checkbox_name _ lib hpre) (by rw [hm1def]; exact hidx)
  have hm2 : (Update m1 (Msg.key Key.space)).1
      = { m1 with
          selectedLibs := setBool m1.selectedLibs lib (! lookupBool m1.selectedLibs lib),
          libraries :=
            { items := buildLibraryItems m1.result.language m1.result.framework m1.libOptions
                (setBool m1.selectedLibs lib (! lookupBool m1.selectedLibs lib)),
              index := m1.libraries.index } } := by
    rw [hstep2]
    exact htog2
  have happly1 : applyMsgs m [Msg.key Key.space] = m1 := by
    show (Update m (Msg.key Key.space)).1 = m1
    rw [hm1]
  have happly2 : applyMsgs m [Msg.key Key.space, Msg.key Key.space]
      = (Update m1 (Msg.key Key.space)).1 := by
    show (Update (Update m (Msg.key Key.space)).1 (Msg.key Key.space)).1 = _
    rw [hm1]
  have hlook2 : lookupBool (Update m1 (Msg.key Key.space)).1.selectedLibs lib
      = lookupBool m.selectedLibs lib := by
    rw [hm2]
    show lookupBool (setBool m1.selectedLibs lib (! lookupBool m1.selectedLibs lib)) lib = _
    rw [lookupBool_setBool_self]
    show (!lookupBool s1 lib) = _
    rw [hlook1, Bool.not_not]
  refine ⟨?_, ?_, ?_, ?_, ?_⟩
  · rw [happly1]
    exact hlook1
  · rw [happly2]
    exact hlook2
  · rw [happly1]
  · rw [happly2, hm2]
  · rw [happly1, happly2, hm2]
    have hget1 : m1.libraries.items.get? m.libraries.index
        = some ⟨(if lookupBool s1 lib then "[x] " else "[ ] ") ++ lib, "optional package"⟩ := by
      show (buildLibraryItems m.result.language m.result.framework m.libOptions s1).get?
          m.libraries.index = _
      exact buildLibraryItems_get _ _ _ _ _ _ hlib
    have hget2 : (buildLibraryItems m1.result.language m1.result.framework m1.libOptions
        (setBool m1.selectedLibs lib (! lookupBool m1.selectedLibs lib))).get?
          m.libraries.index
        = some ⟨(if lookupBool (setBool m1.selectedLibs lib (! lookupBool m1.selectedLibs lib))
              lib then "[x] " else "[ ] ") ++ lib, "optional package"⟩ :=
      buildLibraryItems_get _ _ _ _ _ _ hlib
    rw [hget1]
    show _ ≠ (buildLibraryItems m1.result.language m1.result.framework m1.libOptions
        (setBool m1.selectedLibs lib (! lookupBool m1.selectedLibs lib))).get?
          m.libraries.index
    rw [hget2]
    have hb2 : lookupBool (setBool m1.selectedLibs lib (! lookupBool m1.selectedLibs lib)) lib
        = lookupBool m.selectedLibs lib := by
      show lookupBool (setBool m1.selectedLibs lib (! lookupBool m1.selectedLibs lib)) lib = _
      rw [lookupBool_setBool_self]
      show (!lookupBool s1 lib) = _
      rw [hlook1, Bool.not_not]
    rw [hb2]
    have hb1 : lookupBool s1 lib = ! lookupBool m.selectedLibs lib := hlook1
    rw [hb1]
    cases hb : lookupBool m.selectedLibs lib with
    | true =>
      intro hcontr
      have hlab := congrArg Item.label (Option.some.inj hcontr)
      exact tag_append_ne lib hlab.symm
    | false =>
      intro hcontr
      have hlab := congrArg Item.label (Option.some.inj hcontr)
      exact tag_append_ne lib hlab

/-- A concrete Libraries-stage model with the Zap entry highlighted. -/
def librariesStageModel : Model :=
  { stage := .libraries, languages := ⟨[], 0⟩, framework := ⟨[], 0⟩,
    libraries := ⟨buildLibraryItems "Go" "Gin" [("Go::Gin", ["Zap", "Gorm"])] [], 1⟩,
    nameValue := [],
    result := ⟨"Go", "Gin", "", []⟩,
    options := [], libOptions := [("Go::Gin", ["Zap", "Gorm"])], selectedLibs := [],
    err := none, titleFrame := 0 }

theorem c5_witness :
    lookupBool (applyMsgs librariesStageModel [Msg.key Key.space]).selectedLibs "Zap"
        = ! lookupBool librariesStageModel.selectedLibs "Zap"
    ∧ lookupBool (applyMsgs librariesStageModel
          [Msg.key Key.space, Msg.key Key.space]).selectedLibs "Zap"
        = lookupBool librariesStageModel.selectedLibs "Zap"
    ∧ (applyMsgs librariesStageModel [Msg.key Key.space]).libraries.index
        = librariesStageModel.libraries.index
    ∧ (applyMsgs librariesStageModel
          [Msg.key Key.space, Msg.key Key.space]).libraries.index
        = librariesStageModel.libraries.index
    ∧ (applyMsgs librariesStageModel [Msg.key Key.space]).libraries.items.get?
          librariesStageModel.libraries.index
        ≠ (applyMsgs librariesStageModel
            [Msg.key Key.space, Msg.key Key.space]).libraries.items.get?
              librariesStageModel.libraries.index :=
  c5_toggle_twice librariesStageModel "Zap" rfl rfl (by decide) (by decide)

end Wizard
